import Mathlib

/-!
Verification of the APEC job-ads crawler (src/extraction/crawl_all_apec_ads.py).

The development shallowly embeds the crawler's core:
* a JSON value type modelling the Python dicts the API returns
  (numbers are modelled as integers; floating point is outside the model),
* the serializer and parser modelling json.dumps / json.loads
  (dumps with ensure_ascii=False and default separators),
* the ads table and upsert_ad,
* the retry loop of fetch_page,
* the exponential backoff delay,
* the pagination driver crawl_all_ads, with the per-page transaction
  boundary and the run-record lifecycle made explicit.
-/

/-- JSON values, as produced by the APEC API and held in Python dicts.
Numbers are modelled as integers (floating point is outside the model). -/
inductive JVal where
  | jnull : JVal
  | jbool : Bool → JVal
  | jint : Int → JVal
  | jstr : String → JVal
  | jarr : List JVal → JVal
  | jobj : List (String × JVal) → JVal

/-- A raw offer dictionary from the API: an insertion-ordered key/value map. -/
abbrev Offer := List (String × JVal)

/-- Model of Python dict.get with default None: a missing key and an explicit
null value are both seen by the caller as None, i.e. jnull. -/
def pyGet (offer : Offer) (key : String) : JVal :=
  match offer.lookup key with
  | some v => v
  | none => JVal.jnull

/-- Python truthiness of a JSON value (None, 0, empty string, False and
empty containers are falsy). -/
def truthy : JVal → Bool
  | JVal.jnull => false
  | JVal.jbool b => b
  | JVal.jint n => decide (n ≠ 0)
  | JVal.jstr s => decide (s.data ≠ [])
  | JVal.jarr xs => !xs.isEmpty
  | JVal.jobj fs => !fs.isEmpty

/-- Whitespace stripped by Python int(str) and skipped by the JSON parser. -/
def isWsChar (c : Char) : Bool :=
  c = ' ' || c = '\t' || c = '\n' || c = '\r' || c.toNat = 11 || c.toNat = 12

/-- Value of a decimal digit character. -/
def charDigitVal (c : Char) : Nat := c.toNat - 48

/-- Decimal value of a list of digit values, most significant first. -/
def digitsVal (ds : List Nat) : Nat := ds.foldl (fun a d => 10 * a + d) 0

/-- Model of Python int(s) for strings: optional surrounding whitespace,
optional sign, then a nonempty run of decimal digits. -/
def strToInt (s : String) : Option Int :=
  let cs := ((s.data.dropWhile isWsChar).reverse.dropWhile isWsChar).reverse
  match cs with
  | [] => none
  | c :: ds =>
    if c = '-' then
      if ds ≠ [] ∧ ds.all Char.isDigit then
        some (-(digitsVal (ds.map charDigitVal) : Int))
      else none
    else if c = '+' then
      if ds ≠ [] ∧ ds.all Char.isDigit then
        some ((digitsVal (ds.map charDigitVal) : Int))
      else none
    else
      if (c :: ds).all Char.isDigit then
        some ((digitsVal ((c :: ds).map charDigitVal) : Int))
      else none

/-- Model of Python int(x) on a JSON value: ints pass through, booleans map
to 0/1, strings are parsed, anything else raises (None result). -/
def pyInt : JVal → Option Int
  | JVal.jint n => some n
  | JVal.jbool b => some (if b then 1 else 0)
  | JVal.jstr s => strToInt s
  | _ => none

/-- The bool_to_int helper of upsert_ad: None stays None (NULL), any other
value is normalised to 1/0 by truthiness. -/
def bool_to_int : JVal → Option Int
  | JVal.jnull => none
  | v => some (if truthy v then 1 else 0)

/-- Decimal digit characters of a natural number (model of Python str(n)). -/
def natChars (n : Nat) : List Char :=
  if _h : n < 10 then [Nat.digitChar n]
  else natChars (n / 10) ++ [Nat.digitChar (n % 10)]
  decreasing_by exact Nat.div_lt_self (by omega) (by omega)

/-- Decimal representation of an integer (model of Python str(n)). -/
def intChars (n : Int) : List Char :=
  if n < 0 then '-' :: natChars n.natAbs else natChars n.natAbs

/-- Open-brace character, written by code point. -/
def lbrace : Char := Char.ofNat 123

/-- Close-brace character, written by code point. -/
def rbrace : Char := Char.ofNat 125

/-- Hexadecimal digit character (lowercase), as emitted by json.dumps for
escaped control characters. -/
def hexDigitChar (n : Nat) : Char := Nat.digitChar n

/-- json.dumps string escaping of one character (ensure_ascii=False):
only the quote, the backslash and control characters are escaped. -/
def escChar (c : Char) : List Char :=
  if c = '"' then ['\\', '"']
  else if c = '\\' then ['\\', '\\']
  else if c = '\n' then ['\\', 'n']
  else if c = '\t' then ['\\', 't']
  else if c = '\r' then ['\\', 'r']
  else if c.toNat = 8 then ['\\', 'b']
  else if c.toNat = 12 then ['\\', 'f']
  else if c.toNat < 32 then
    ['\\', 'u', '0', '0', hexDigitChar (c.toNat / 16), hexDigitChar (c.toNat % 16)]
  else [c]

/-- json.dumps string escaping of a character list. -/
def escChars : List Char → List Char
  | [] => []
  | c :: cs => escChar c ++ escChars cs

mutual

/-- Characters of json.dumps(v) with ensure_ascii=False and the default
separators (item separator comma-space, key separator colon-space). -/
def jdumpChars : JVal → List Char
  | JVal.jnull => ['n', 'u', 'l', 'l']
  | JVal.jbool true => ['t', 'r', 'u', 'e']
  | JVal.jbool false => ['f', 'a', 'l', 's', 'e']
  | JVal.jint n => intChars n
  | JVal.jstr s => '"' :: (escChars s.data ++ ['"'])
  | JVal.jarr xs => '[' :: (jdumpItems xs ++ [']'])
  | JVal.jobj fs => lbrace :: (jdumpFields fs ++ [rbrace])

/-- Comma-space separated dumps of array items. -/
def jdumpItems : List JVal → List Char
  | [] => []
  | [v] => jdumpChars v
  | v :: w :: vs => jdumpChars v ++ (',' :: ' ' :: jdumpItems (w :: vs))

/-- Comma-space separated dumps of object fields, each a quoted key,
colon-space, and the value. -/
def jdumpFields : List (String × JVal) → List Char
  | [] => []
  | [(k, v)] => '"' :: (escChars k.data ++ ('"' :: ':' :: ' ' :: jdumpChars v))
  | (k, v) :: f :: fs =>
    ('"' :: (escChars k.data ++ ('"' :: ':' :: ' ' :: jdumpChars v)))
      ++ (',' :: ' ' :: jdumpFields (f :: fs))

end

/-- json.dumps as a String. -/
def jdumpStr (v : JVal) : String := String.mk (jdumpChars v)

/-- Model of Python str(x) for values stored via float_to_str. Scalars are
rendered exactly; containers are rendered as their JSON dump (in the crawler
the score field this is applied to is always a scalar). -/
def pyStr : JVal → String
  | JVal.jnull => "None"
  | JVal.jbool true => "True"
  | JVal.jbool false => "False"
  | JVal.jint n => String.mk (intChars n)
  | JVal.jstr s => s
  | v => jdumpStr v

/-- The float_to_str helper of upsert_ad: None stays None (NULL), any other
value is stored as its exact string representation. -/
def float_to_str : JVal → Option String
  | JVal.jnull => none
  | v => some (pyStr v)

/-- One row of the ads table: the integer primary key, the flattened scalar
projection of the offer, the verbatim serialized payload, and the two
tracking timestamps. -/
structure AdRow where
  id : Int
  numero_offre : JVal
  intitule : JVal
  intitule_surbrillance : JVal
  nom_commercial : JVal
  url_logo : JVal
  client_reel : Option Int
  offre_confidentielle : Option Int
  lieu_texte : JVal
  latitude : JVal
  longitude : JVal
  localisable : Option Int
  texte_offre : JVal
  salaire_texte : JVal
  type_contrat : JVal
  contract_duration : JVal
  secteur_activite : JVal
  secteur_activite_parent : JVal
  origine_code : JVal
  date_publication : JVal
  date_validation : JVal
  id_nom_teletravail : JVal
  indicateur_oqa : Option Int
  indicateur_faible_candidature : Option Int
  score : Option String
  payload_json : String
  first_seen_at : String
  last_seen_at : String

/-- The fresh row built by the insert branch of upsert_ad. -/
def newRow (oid : Int) (offer : Offer) (now_iso : String) : AdRow :=
  { id := oid
    numero_offre := pyGet offer "numeroOffre"
    intitule := pyGet offer "intitule"
    intitule_surbrillance := pyGet offer "intituleSurbrillance"
    nom_commercial := pyGet offer "nomCommercial"
    url_logo := pyGet offer "urlLogo"
    client_reel := bool_to_int (pyGet offer "clientReel")
    offre_confidentielle := bool_to_int (pyGet offer "offreConfidentielle")
    lieu_texte := pyGet offer "lieuTexte"
    latitude := pyGet offer "latitude"
    longitude := pyGet offer "longitude"
    localisable := bool_to_int (pyGet offer "localisable")
    texte_offre := pyGet offer "texteOffre"
    salaire_texte := pyGet offer "salaireTexte"
    type_contrat := pyGet offer "typeContrat"
    contract_duration := pyGet offer "contractDuration"
    secteur_activite := pyGet offer "secteurActivite"
    secteur_activite_parent := pyGet offer "secteurActiviteParent"
    origine_code := pyGet offer "origineCode"
    date_publication := pyGet offer "datePublication"
    date_validation := pyGet offer "dateValidation"
    id_nom_teletravail := pyGet offer "idNomTeletravail"
    indicateur_oqa := bool_to_int (pyGet offer "indicateurOqa")
    indicateur_faible_candidature := bool_to_int (pyGet offer "indicateurFaibleCandidature")
    score := float_to_str (pyGet offer "score")
    payload_json := jdumpStr (JVal.jobj offer)
    first_seen_at := now_iso
    last_seen_at := now_iso }

/-- The field updates performed by the update branch of upsert_ad: all
flattened fields, the payload and last_seen_at are reassigned; the id and
first_seen_at are untouched. -/
def updatedRow (existing : AdRow) (offer : Offer) (now_iso : String) : AdRow :=
  { existing with
    last_seen_at := now_iso
    payload_json := jdumpStr (JVal.jobj offer)
    numero_offre := pyGet offer "numeroOffre"
    intitule := pyGet offer "intitule"
    intitule_surbrillance := pyGet offer "intituleSurbrillance"
    nom_commercial := pyGet offer "nomCommercial"
    url_logo := pyGet offer "urlLogo"
    client_reel := bool_to_int (pyGet offer "clientReel")
    offre_confidentielle := bool_to_int (pyGet offer "offreConfidentielle")
    lieu_texte := pyGet offer "lieuTexte"
    latitude := pyGet offer "latitude"
    longitude := pyGet offer "longitude"
    localisable := bool_to_int (pyGet offer "localisable")
    texte_offre := pyGet offer "texteOffre"
    salaire_texte := pyGet offer "salaireTexte"
    type_contrat := pyGet offer "typeContrat"
    contract_duration := pyGet offer "contractDuration"
    secteur_activite := pyGet offer "secteurActivite"
    secteur_activite_parent := pyGet offer "secteurActiviteParent"
    origine_code := pyGet offer "origineCode"
    date_publication := pyGet offer "datePublication"
    date_validation := pyGet offer "dateValidation"
    id_nom_teletravail := pyGet offer "idNomTeletravail"
    indicateur_oqa := bool_to_int (pyGet offer "indicateurOqa")
    indicateur_faible_candidature := bool_to_int (pyGet offer "indicateurFaibleCandidature")
    score := float_to_str (pyGet offer "score") }

/-- Lookup by primary key (session.get(Ad, offer_id)). -/
def db_find : List AdRow → Int → Option AdRow
  | [], _ => none
  | r :: tl, oid => if r.id = oid then some r else db_find tl oid

/-- Attribute assignment on the row with the given primary key. -/
def db_update : List AdRow → Int → AdRow → List AdRow
  | [], _, _ => []
  | row :: tl, oid, r => (if row.id = oid then r else row) :: db_update tl oid r

/-- Number of rows holding the given identifier. -/
def countId : List AdRow → Int → Nat
  | [], _ => 0
  | row :: tl, oid => (if row.id = oid then 1 else 0) + countId tl oid

/-- upsert_ad: validate the identifier (truthiness, then int()), then either
update the existing row or insert a fresh one. Returns the new table and
True for a new ad, False for an update or a skipped record. -/
def upsert_ad (db : List AdRow) (offer : Offer) (now_iso : String) :
    List AdRow × Bool :=
  let offer_id := pyGet offer "id"
  if truthy offer_id = false then (db, false)
  else
    match pyInt offer_id with
    | none => (db, false)
    | some oid =>
      match db_find db oid with
      | some existing => (db_update db oid (updatedRow existing offer now_iso), false)
      | none => (db ++ [newRow oid offer now_iso], true)

/-- Skip JSON whitespace. -/
def skipWs : List Char → List Char
  | [] => []
  | c :: rest => if isWsChar c then skipWs rest else c :: rest

/-- Value of a hexadecimal digit character, if any. -/
def hexVal (c : Char) : Option Nat :=
  if c.isDigit then some (c.toNat - 48)
  else if 97 ≤ c.toNat ∧ c.toNat ≤ 102 then some (c.toNat - 87)
  else if 65 ≤ c.toNat ∧ c.toNat ≤ 70 then some (c.toNat - 55)
  else none

/-- Decode of a single-character JSON escape. -/
def unescChar (e : Char) : Option Char :=
  if e = '"' then some '"'
  else if e = '\\' then some '\\'
  else if e = '/' then some '/'
  else if e = 'n' then some '\n'
  else if e = 't' then some '\t'
  else if e = 'r' then some '\r'
  else if e = 'b' then some (Char.ofNat 8)
  else if e = 'f' then some (Char.ofNat 12)
  else none

/-- Parse the body of a JSON string after the opening quote, yielding the
decoded characters and the input after the closing quote. -/
def parseStrBody : List Char → Option (List Char × List Char)
  | [] => none
  | c :: rest =>
    if c = '"' then some ([], rest)
    else if c = '\\' then
      match rest with
      | [] => none
      | e :: rest1 =>
        if e = 'u' then
          match rest1 with
          | h1 :: h2 :: h3 :: h4 :: rest2 =>
            match hexVal h1, hexVal h2, hexVal h3, hexVal h4 with
            | some a, some b, some c2, some d =>
              match parseStrBody rest2 with
              | some (cs, r) =>
                some (Char.ofNat (((a * 16 + b) * 16 + c2) * 16 + d) :: cs, r)
              | none => none
            | _, _, _, _ => none
          | _ => none
        else
          match unescChar e with
          | some u =>
            match parseStrBody rest1 with
            | some (cs, r) => some (u :: cs, r)
            | none => none
          | none => none
    else
      match parseStrBody rest with
      | some (cs, r) => some (c :: cs, r)
      | none => none
termination_by l => l.length
decreasing_by all_goals (simp only [List.length_cons]; omega)

/-- Take a maximal run of decimal digits, as digit values. -/
def takeDigits : List Char → List Nat × List Char
  | [] => ([], [])
  | c :: rest =>
    if c.isDigit then
      let p := takeDigits rest
      (charDigitVal c :: p.1, p.2)
    else ([], c :: rest)

mutual

/-- Fuel-indexed model of json.loads for one JSON value: parses a value off
the front of the input and returns it with the remaining input. The fuel
only bounds nesting; jparse below always supplies enough. -/
def parseVal : Nat → List Char → Option (JVal × List Char)
  | 0, _ => none
  | fuel + 1, input =>
    match skipWs input with
    | [] => none
    | c :: rest =>
      if c.isDigit then
        match takeDigits (c :: rest) with
        | (ds, r) => some (JVal.jint (digitsVal ds), r)
      else if c = '-' then
        match takeDigits rest with
        | ([], _) => none
        | (ds, r) => some (JVal.jint (-(digitsVal ds : Int)), r)
      else if c = 'n' then
        match rest with
        | c1 :: c2 :: c3 :: r =>
          if c1 = 'u' ∧ c2 = 'l' ∧ c3 = 'l' then some (JVal.jnull, r) else none
        | _ => none
      else if c = 't' then
        match rest with
        | c1 :: c2 :: c3 :: r =>
          if c1 = 'r' ∧ c2 = 'u' ∧ c3 = 'e' then some (JVal.jbool true, r) else none
        | _ => none
      else if c = 'f' then
        match rest with
        | c1 :: c2 :: c3 :: c4 :: r =>
          if c1 = 'a' ∧ c2 = 'l' ∧ c3 = 's' ∧ c4 = 'e' then some (JVal.jbool false, r)
          else none
        | _ => none
      else if c = '"' then
        match parseStrBody rest with
        | some (cs, r) => some (JVal.jstr (String.mk cs), r)
        | none => none
      else if c = '[' then
        match skipWs rest with
        | [] => none
        | d :: r2 =>
          if d = ']' then some (JVal.jarr [], r2)
          else
            match parseItems fuel (d :: r2) with
            | some (vs, r) => some (JVal.jarr vs, r)
            | none => none
      else if c = lbrace then
        match skipWs rest with
        | [] => none
        | d :: r2 =>
          if d = rbrace then some (JVal.jobj [], r2)
          else
            match parseFields fuel (d :: r2) with
            | some (fs, r) => some (JVal.jobj fs, r)
            | none => none
      else none

/-- Parse one or more comma-separated array items up to the closing bracket. -/
def parseItems : Nat → List Char → Option (List JVal × List Char)
  | 0, _ => none
  | fuel + 1, input =>
    match parseVal fuel input with
    | none => none
    | some (v, rest) =>
      match skipWs rest with
      | [] => none
      | d :: r2 =>
        if d = ']' then some ([v], r2)
        else if d = ',' then
          match parseItems fuel r2 with
          | some (vs, r3) => some (v :: vs, r3)
          | none => none
        else none

/-- Parse one or more comma-separated object fields up to the closing brace. -/
def parseFields : Nat → List Char → Option (List (String × JVal) × List Char)
  | 0, _ => none
  | fuel + 1, input =>
    match skipWs input with
    | [] => none
    | c :: rest =>
      if c = '"' then
        match parseStrBody rest with
        | none => none
        | some (key, rest1) =>
          match skipWs rest1 with
          | [] => none
          | d :: rest2 =>
            if d = ':' then
              match parseVal fuel rest2 with
              | none => none
              | some (v, rest3) =>
                match skipWs rest3 with
                | [] => none
                | e :: rest4 =>
                  if e = rbrace then some ([(String.mk key, v)], rest4)
                  else if e = ',' then
                    match parseFields fuel rest4 with
                    | some (fs, rest5) => some ((String.mk key, v) :: fs, rest5)
                    | none => none
                  else none
            else none
      else none

end

/-- Model of json.loads on a whole string: parse one value, then require
only trailing whitespace. The fuel is large enough for any input since each
nesting level consumes at least one character. -/
def jparse (s : String) : Option JVal :=
  match parseVal (s.data.length + 1) s.data with
  | some (v, rest) => if skipWs rest = [] then some v else none
  | none => none

/-- The module constant MAX_RETRIES. -/
def MAX_RETRIES : Nat := 5

/-- What the network returns for one attempt of fetch_page: an HTTP
response with a status code and JSON body, a timeout, or a connection
error. -/
inductive AttemptResult where
  | resp : Nat → JVal → AttemptResult
  | timeout : AttemptResult
  | connError : AttemptResult

/-- How fetch_page ends: a parsed body, a sys.exit call, a raised HTTP
error carrying the status, a re-raised timeout or connection error, or the
generic HTTPError raised after the loop (unreachable in fact). -/
inductive FetchOutcome where
  | ok : JVal → FetchOutcome
  | exit : Nat → FetchOutcome
  | httpError : Nat → FetchOutcome
  | timeoutError : FetchOutcome
  | connectionError : FetchOutcome
  | failedAfterRetries : FetchOutcome

/-- Observable result of fetch_page: its outcome, the number of attempts
made (requests issued), and the number of backoff sleeps performed. -/
structure FetchResult where
  outcome : FetchOutcome
  attempts : Nat
  backoffs : Nat

/-- The retry loop of fetch_page. The environment gives the network's
answer to the attempt with the given index. Mirrors the source: 401/403
exit immediately; 429 and 5xx back off and retry while attempts remain,
else raise_for_status; other 4xx raise immediately; timeouts and
connection errors back off and retry while attempts remain, else re-raise. -/
def fetch_loop (env : Nat → AttemptResult) (attempt backoffs : Nat) : FetchResult :=
  if MAX_RETRIES ≤ attempt then
    { outcome := FetchOutcome.failedAfterRetries, attempts := attempt, backoffs := backoffs }
  else
    match env attempt with
    | AttemptResult.resp s body =>
      if s = 401 ∨ s = 403 then
        { outcome := FetchOutcome.exit 1, attempts := attempt + 1, backoffs := backoffs }
      else if s = 429 then
        if attempt < MAX_RETRIES - 1 then fetch_loop env (attempt + 1) (backoffs + 1)
        else { outcome := FetchOutcome.httpError 429, attempts := attempt + 1, backoffs := backoffs }
      else if 500 ≤ s then
        if attempt < MAX_RETRIES - 1 then fetch_loop env (attempt + 1) (backoffs + 1)
        else { outcome := FetchOutcome.httpError s, attempts := attempt + 1, backoffs := backoffs }
      else if 400 ≤ s then
        { outcome := FetchOutcome.httpError s, attempts := attempt + 1, backoffs := backoffs }
      else
        { outcome := FetchOutcome.ok body, attempts := attempt + 1, backoffs := backoffs }
    | AttemptResult.timeout =>
      if attempt < MAX_RETRIES - 1 then fetch_loop env (attempt + 1) (backoffs + 1)
      else { outcome := FetchOutcome.timeoutError, attempts := attempt + 1, backoffs := backoffs }
    | AttemptResult.connError =>
      if attempt < MAX_RETRIES - 1 then fetch_loop env (attempt + 1) (backoffs + 1)
      else { outcome := FetchOutcome.connectionError, attempts := attempt + 1, backoffs := backoffs }
termination_by MAX_RETRIES - attempt
decreasing_by all_goals omega

/-- fetch_page: run the retry loop from attempt 0 with no sleeps yet. -/
def fetch_page (env : Nat → AttemptResult) : FetchResult := fetch_loop env 0 0

/-- A network answer is retryable when the source's backoff paths apply:
HTTP 429, HTTP 5xx, a timeout, or a connection error. -/
def retryable : AttemptResult → Prop
  | AttemptResult.resp s _ => s = 429 ∨ 500 ≤ s
  | AttemptResult.timeout => True
  | AttemptResult.connError => True

/-- An outcome that surfaces an error to the caller (a raised exception,
neither a returned body nor a process exit). -/
def isTerminalError : FetchOutcome → Bool
  | FetchOutcome.ok _ => false
  | FetchOutcome.exit _ => false
  | _ => true

/-- The delay (excluding jitter) computed by exponential_backoff_sleep:
min(base_delay * 2 ^ attempt, max_delay). Python float arithmetic is
modelled with exact rationals. -/
def exponential_backoff_delay (attempt : Nat) (base_delay max_delay : ℚ) : ℚ :=
  min (base_delay * 2 ^ attempt) max_delay

/-- Contract of random.uniform(lo, hi): the drawn value lies in [lo, hi]. -/
def uniform_between (lo hi x : ℚ) : Prop := lo ≤ x ∧ x ≤ hi

/-- The jitter drawn by exponential_backoff_sleep for a given delay:
random.uniform(0, delay * 0.1). -/
def backoff_jitter_ok (delay jitter : ℚ) : Prop :=
  uniform_between 0 (delay * (1 / 10)) jitter

/-- One row of the runs table. -/
structure RunRow where
  run_id : String
  started_at : String
  ended_at : Option String
  ads_fetched : Nat
  pages_fetched : Nat
  notes : Option String

/-- A commit against the store, in order: the run-creation commit, one
commit per page (carrying the zero-based page number), and the run
finalization commit. -/
inductive CommitEvent where
  | runCreate : CommitEvent
  | page : Nat → CommitEvent
  | runFinalize : CommitEvent
deriving DecidableEq

/-- State of crawl_all_ads: the durable ads table, the run row, the commit
log, and the loop's local variables. -/
structure CrawlState where
  ads : List AdRow
  run : RunRow
  commits : List CommitEvent
  fetches : Nat
  newCount : Nat
  updatedCount : Nat
  pages : Nat
  startIndex : Nat

/-- One iteration of the page persistence loop: upsert the offer into the
session state and tally it as new or as updated/skipped. -/
def page_step (now : String) (acc : List AdRow × Nat × Nat) (offer : Offer) :
    List AdRow × Nat × Nat :=
  let r := upsert_ad acc.1 offer now
  (r.1, (if r.2 then acc.2.1 + 1 else acc.2.1, if r.2 then acc.2.2 else acc.2.2 + 1))

/-- The page persistence loop: upsert every offer of the page in order
(within one session), tallying new and updated/skipped records. -/
def process_page (ads : List AdRow) (offers : List Offer) (now : String) :
    List AdRow × Nat × Nat :=
  offers.foldl (page_step now) (ads, (0, 0))

/-- Result of one page's transaction: a commit of the session state with
the page tallies, or an abort at a record index. -/
inductive TxnResult where
  | committed : List AdRow → Nat → Nat → TxnResult
  | aborted : Nat → TxnResult

/-- The body of the with-block around the page loop, with fault injection:
the session state starts from the durable table; an unexpected error before
record number idx0 aborts the transaction; reaching the end of the page
commits. -/
def page_txn_go (pend : List AdRow) (offers : List Offer) (now : String)
    (err : Option Nat) (idx n u : Nat) : TxnResult :=
  match offers with
  | [] => TxnResult.committed pend n u
  | offer :: rest =>
    if err = some idx then TxnResult.aborted idx
    else
      let r := upsert_ad pend offer now
      page_txn_go r.1 rest now err (idx + 1)
        (if r.2 then n + 1 else n) (if r.2 then u else u + 1)

/-- One page transaction from the durable table. -/
def page_txn (durable : List AdRow) (offers : List Offer) (now : String)
    (err : Option Nat) : TxnResult :=
  page_txn_go durable offers now err 0 0 0

/-- The durable ads table after the with-block: a commit publishes the
session state; an exception escaping the block leaves no trace (the
session is closed without committing). -/
def ads_after_page (durable : List AdRow) (offers : List Offer) (now : String)
    (err : Option Nat) : List AdRow :=
  match page_txn durable offers now err with
  | TxnResult.committed ads _ _ => ads
  | TxnResult.aborted _ => durable

/-- The while-loop of crawl_all_ads, fuel-indexed (the source loop is
unbounded; every theorem supplies enough fuel). The environment maps a
start index to the fetched page (offers list and totalCount) or to none
when fetch_page raises after retries. MAX_PAGES is None in the source, so
no page-cap check appears. Mirrors the source: fetch; on error break; on
an empty page break; else upsert the page in one transaction, advance the
counters, and stop once startIndex + pageSize reaches the reported total,
else advance startIndex and continue. -/
def crawl_loop (pageSize : Nat) (env : Nat → Option (List Offer × Nat))
    (pageTime : Nat → String) : Nat → CrawlState → CrawlState
  | 0, st => st
  | fuel + 1, st =>
    match env st.startIndex with
    | none => { st with fetches := st.fetches + 1 }
    | some pr =>
      if pr.1.isEmpty then { st with fetches := st.fetches + 1 }
      else
        let res := process_page st.ads pr.1 (pageTime st.pages)
        let st2 : CrawlState :=
          { st with
            ads := res.1
            fetches := st.fetches + 1
            newCount := st.newCount + res.2.1
            updatedCount := st.updatedCount + res.2.2
            pages := st.pages + 1
            commits := st.commits ++ [CommitEvent.page st.pages] }
        if pr.2 ≤ st.startIndex + pageSize then st2
        else crawl_loop pageSize env pageTime fuel { st2 with startIndex := st.startIndex + pageSize }

/-- crawl_all_ads: create and commit the run row, drive the pagination
loop, then finalize the run row (end timestamp and final counters) with
one more commit. t0 and tEnd are the clock readings at start and end;
pageTime gives the clock reading taken for each page. -/
def crawl_all_ads (pageSize : Nat) (env : Nat → Option (List Offer × Nat))
    (pageTime : Nat → String) (t0 tEnd run_id : String) (fuel : Nat)
    (ads0 : List AdRow) : CrawlState :=
  let st0 : CrawlState :=
    { ads := ads0
      run :=
        { run_id := run_id, started_at := t0, ended_at := none, ads_fetched := 0,
          pages_fetched := 0, notes := some "Full crawl of all APEC job ads" }
      commits := [CommitEvent.runCreate]
      fetches := 0, newCount := 0, updatedCount := 0, pages := 0, startIndex := 0 }
  let st := crawl_loop pageSize env pageTime fuel st0
  { st with
    run :=
      { st.run with
        ended_at := some tEnd
        ads_fetched := st.newCount + st.updatedCount
        pages_fetched := st.pages }
    commits := st.commits ++ [CommitEvent.runFinalize] }

/-- The offers of the page the environment serves at a start index. -/
def pageOffers (env : Nat → Option (List Offer × Nat)) (i : Nat) : List Offer :=
  ((env i).getD ([], 0)).1

/-- Cumulative effect of a list of pages on the ads table, with page
timestamps pageTime p0, pageTime (p0+1), ...: the final table and the
total new and updated tallies. -/
def apply_pages (pageTime : Nat → String) :
    List AdRow → Nat → List (List Offer) → List AdRow × Nat × Nat
  | ads, _, [] => (ads, (0, 0))
  | ads, p, offers :: rest =>
    let r := process_page ads offers (pageTime p)
    let acc := apply_pages pageTime r.1 (p + 1) rest
    (acc.1, (r.2.1 + acc.2.1, r.2.2 + acc.2.2))

/-- The crawl state the loop reaches after fetching the given successful
pages followed by one failed or empty fetch. -/
def expected_after (pageSize : Nat) (pageTime : Nat → String) :
    CrawlState → List (List Offer) → CrawlState
  | st, [] => { st with fetches := st.fetches + 1 }
  | st, offers :: rest =>
    let res := process_page st.ads offers (pageTime st.pages)
    expected_after pageSize pageTime
      { st with
        ads := res.1
        fetches := st.fetches + 1
        newCount := st.newCount + res.2.1
        updatedCount := st.updatedCount + res.2.2
        pages := st.pages + 1
        commits := st.commits ++ [CommitEvent.page st.pages]
        startIndex := st.startIndex + pageSize } rest

/-- The environment of the pagination-termination scenario: the API
reports total T and serves, at offset i, the records in positions
i .. min(i+P, T)-1, each built by the record function. -/
def envSlice (T P : Nat) (record : Nat → Offer) : Nat → Option (List Offer × Nat) :=
  fun i => some ((List.range' i (min (i + P) T - i)).map record, T)

/-- Decimal digit values of a natural number, most significant first. -/
def natDigits (n : Nat) : List Nat :=
  if _h : n < 10 then [n] else natDigits (n / 10) ++ [n % 10]
  decreasing_by exact Nat.div_lt_self (by omega) (by omega)

/-- True when the input does not begin with a decimal digit (so a number
parse just before it stops exactly there). -/
def noLeadDigit : List Char → Bool
  | [] => true
  | c :: _ => !c.isDigit

mutual

/-- Fuel needed by parseVal to parse the dump of a value: one unit per
nesting level. -/
def fuelV : JVal → Nat
  | JVal.jarr xs => 1 + fuelItems xs
  | JVal.jobj fs => 1 + fuelFields fs
  | _ => 1

/-- Fuel needed by parseItems on the dumped items. -/
def fuelItems : List JVal → Nat
  | [] => 0
  | v :: vs => 1 + max (fuelV v) (fuelItems vs)

/-- Fuel needed by parseFields on the dumped fields. -/
def fuelFields : List (String × JVal) → Nat
  | [] => 0
  | f :: fs => 1 + max (fuelV f.2) (fuelFields fs)

end

/-- Witness scenario: one successful page at offset 0 (total 300), then an
unrecoverable fetch failure at offset 100. -/
def envOnePage : Nat → Option (List Offer × Nat) :=
  fun i => if i = 0 then some ([[("id", JVal.jint 1)]], 300) else none

/-- Witness scenario: a constant page clock. -/
def constTime : Nat → String := fun _ => "t"

/-! Basic facts about the ads table operations. -/

theorem db_find_some_id {db : List AdRow} {oid : Int} {r : AdRow}
    (h : db_find db oid = some r) : r.id = oid := by
  induction db with
  | nil => simp [db_find] at h
  | cons row tl ih =>
    simp only [db_find] at h
    by_cases hrow : row.id = oid
    · rw [if_pos hrow] at h
      cases h
      exact hrow
    · rw [if_neg hrow] at h
      exact ih h

theorem db_find_update_self {db : List AdRow} {oid : Int} {r0 : AdRow} (r : AdRow)
    (hfind : db_find db oid = some r0) (hid : r.id = oid) :
    db_find (db_update db oid r) oid = some r := by
  induction db with
  | nil => simp [db_find] at hfind
  | cons row tl ih =>
    simp only [db_find] at hfind
    by_cases hrow : row.id = oid
    · simp [db_update, db_find, hrow, hid]
    · rw [if_neg hrow] at hfind
      simp only [db_update]
      rw [if_neg hrow]
      simp only [db_find]
      rw [if_neg hrow]
      exact ih hfind

theorem db_find_append_new {db : List AdRow} {oid : Int} (r : AdRow)
    (hfind : db_find db oid = none) (hid : r.id = oid) :
    db_find (db ++ [r]) oid = some r := by
  induction db with
  | nil => simp [db_find, hid]
  | cons row tl ih =>
    simp only [db_find, List.cons_append] at hfind ⊢
    by_cases hrow : row.id = oid
    · simp [hrow] at hfind
    · rw [if_neg hrow] at hfind ⊢
      exact ih hfind

theorem db_update_length (db : List AdRow) (oid : Int) (r : AdRow) :
    (db_update db oid r).length = db.length := by
  induction db with
  | nil => rfl
  | cons row tl ih => simp only [db_update, List.length_cons, ih]

theorem countId_update (db : List AdRow) {oid : Int} {r : AdRow} (hid : r.id = oid) :
    countId (db_update db oid r) oid = countId db oid := by
  induction db with
  | nil => rfl
  | cons row tl ih =>
    simp only [db_update, countId]
    by_cases hrow : row.id = oid
    · simp [hrow, hid, ih]
    · simp [hrow, ih]

theorem countId_append_new (db : List AdRow) {oid : Int} {r : AdRow} (hid : r.id = oid) :
    countId (db ++ [r]) oid = countId db oid + 1 := by
  induction db with
  | nil => simp [countId, hid]
  | cons row tl ih =>
    simp only [List.cons_append, countId]
    by_cases hrow : row.id = oid <;> simp [hrow, ih] <;> omega

theorem countId_eq_zero {db : List AdRow} {oid : Int}
    (hfind : db_find db oid = none) : countId db oid = 0 := by
  induction db with
  | nil => rfl
  | cons row tl ih =>
    simp only [db_find] at hfind
    by_cases hrow : row.id = oid
    · simp [hrow] at hfind
    · rw [if_neg hrow] at hfind
      simp [countId, hrow, ih hfind]

theorem countId_eq_zero_of_not_mem {db : List AdRow} {oid : Int}
    (h : oid ∉ db.map AdRow.id) : countId db oid = 0 := by
  induction db with
  | nil => rfl
  | cons row tl ih =>
    simp only [List.map_cons, List.mem_cons] at h
    push_neg at h
    have hrow : row.id ≠ oid := fun hh => h.1 hh.symm
    simp [countId, hrow, ih h.2]

theorem countId_eq_one_of_nodup {db : List AdRow} {oid : Int} {r : AdRow}
    (hnodup : (db.map AdRow.id).Nodup) (hfind : db_find db oid = some r) :
    countId db oid = 1 := by
  induction db with
  | nil => simp [db_find] at hfind
  | cons row tl ih =>
    simp only [List.map_cons, List.nodup_cons] at hnodup
    simp only [db_find, countId] at hfind ⊢
    by_cases hrow : row.id = oid
    · have : countId tl oid = 0 := countId_eq_zero_of_not_mem (by rw [← hrow]; exact hnodup.1)
      simp [hrow, this]
    · rw [if_neg hrow] at hfind
      simp [hrow, ih hnodup.2 hfind]

theorem updatedRow_id (r : AdRow) (offer : Offer) (t : String) :
    (updatedRow r offer t).id = r.id := rfl

theorem newRow_id (oid : Int) (offer : Offer) (t : String) :
    (newRow oid offer t).id = oid := rfl

/-- The update branch rewrites every column the insert branch fills, from
the same offer, except the primary key and first_seen_at. -/
theorem updatedRow_eq_newRow (r : AdRow) (offer : Offer) (t : String) :
    updatedRow r offer t = { newRow r.id offer t with first_seen_at := r.first_seen_at } := rfl

/-- On a record with a truthy, integer-parseable identifier, upsert_ad
updates the existing row or inserts a fresh one. -/
theorem upsert_ad_valid (db : List AdRow) (offer : Offer) (t : String) {oid : Int}
    (hT : truthy (pyGet offer "id") = true)
    (hP : pyInt (pyGet offer "id") = some oid) :
    upsert_ad db offer t =
      (match db_find db oid with
      | some existing => (db_update db oid (updatedRow existing offer t), false)
      | none => (db ++ [newRow oid offer t], true)) := by
  simp [upsert_ad, hT, hP]

/-- C1: re-ingesting a record with a valid integer identifier leaves one
row for it, does not change the row count, refreshes every flattened field,
the payload and last_seen_at from the new ingestion, keeps first_seen_at,
and is classified as updated (upsert_ad returns False). -/
theorem upsert_idempotent (db : List AdRow) (offer : Offer) (t1 t2 : String) (oid : Int)
    (hnodup : (db.map AdRow.id).Nodup)
    (hT : truthy (pyGet offer "id") = true)
    (hP : pyInt (pyGet offer "id") = some oid)
    (db1 : List AdRow) (b1 : Bool) (h1 : upsert_ad db offer t1 = (db1, b1))
    (db2 : List AdRow) (b2 : Bool) (h2 : upsert_ad db1 offer t2 = (db2, b2)) :
    b2 = false ∧ db2.length = db1.length ∧ countId db2 oid = 1 ∧
    ∃ r1, db_find db1 oid = some r1 ∧
      db_find db2 oid = some { newRow oid offer t2 with first_seen_at := r1.first_seen_at } := by
  rw [upsert_ad_valid db offer t1 hT hP] at h1
  cases hfind : db_find db oid with
  | none =>
    rw [hfind] at h1
    injection h1 with hdb1 hb1
    subst hdb1
    have hf1 : db_find (db ++ [newRow oid offer t1]) oid = some (newRow oid offer t1) :=
      db_find_append_new (newRow oid offer t1) hfind rfl
    rw [upsert_ad_valid _ offer t2 hT hP, hf1] at h2
    injection h2 with hdb2 hb2
    subst hdb2
    refine ⟨hb2.symm, db_update_length _ _ _, ?_, newRow oid offer t1, hf1, ?_⟩
    · rw [countId_update _
          (show (updatedRow (newRow oid offer t1) offer t2).id = oid from rfl),
        countId_append_new db (show (newRow oid offer t1).id = oid from rfl),
        countId_eq_zero hfind]
    · rw [db_find_update_self _ hf1
          (show (updatedRow (newRow oid offer t1) offer t2).id = oid from rfl),
        updatedRow_eq_newRow]
      rfl
  | some r0 =>
    rw [hfind] at h1
    injection h1 with hdb1 hb1
    subst hdb1
    have hid0 : r0.id = oid := db_find_some_id hfind
    have hf1 : db_find (db_update db oid (updatedRow r0 offer t1)) oid
        = some (updatedRow r0 offer t1) :=
      db_find_update_self _ hfind (by rw [updatedRow_id, hid0])
    rw [upsert_ad_valid _ offer t2 hT hP, hf1] at h2
    injection h2 with hdb2 hb2
    subst hdb2
    refine ⟨hb2.symm, db_update_length _ _ _, ?_, updatedRow r0 offer t1, hf1, ?_⟩
    · rw [countId_update _
          (show (updatedRow (updatedRow r0 offer t1) offer t2).id = oid by
            rw [updatedRow_id, updatedRow_id, hid0]),
        countId_update _
          (show (updatedRow r0 offer t1).id = oid by rw [updatedRow_id, hid0])]
      exact countId_eq_one_of_nodup hnodup hfind
    · rw [db_find_update_self _ hf1
          (show (updatedRow (updatedRow r0 offer t1) offer t2).id = oid by
            rw [updatedRow_id, updatedRow_id, hid0]),
        updatedRow_eq_newRow]
      rw [updatedRow_id, hid0]

/-- C1 witness: ingesting the same offer (id 42) twice from an empty table. -/
theorem upsert_idempotent_witness :
    (upsert_ad (upsert_ad [] [("id", JVal.jint 42)] "t1").1 [("id", JVal.jint 42)] "t2").2
        = false ∧
    (upsert_ad (upsert_ad [] [("id", JVal.jint 42)] "t1").1 [("id", JVal.jint 42)] "t2").1.length
        = (upsert_ad [] [("id", JVal.jint 42)] "t1").1.length ∧
    countId (upsert_ad (upsert_ad [] [("id", JVal.jint 42)] "t1").1 [("id", JVal.jint 42)] "t2").1 42
        = 1 ∧
    ∃ r1, db_find (upsert_ad [] [("id", JVal.jint 42)] "t1").1 42 = some r1 ∧
      db_find (upsert_ad (upsert_ad [] [("id", JVal.jint 42)] "t1").1 [("id", JVal.jint 42)] "t2").1 42
        = some { newRow 42 [("id", JVal.jint 42)] "t2" with first_seen_at := r1.first_seen_at } :=
  upsert_idempotent [] [("id", JVal.jint 42)] "t1" "t2" 42 (by simp) (by rfl) (by rfl)
    _ _ rfl _ _ rfl

/-- C3: a record whose identifier is missing or not parseable as an integer
produces no row and no change, is classified as not-new (skipped), and the
page loop tallies it without raising any error. -/
theorem upsert_invalid_id_skipped (db : List AdRow) (offer : Offer) (t : String)
    (hbad : pyInt (pyGet offer "id") = none) :
    upsert_ad db offer t = (db, false) ∧ process_page db [offer] t = (db, (0, 1)) := by
  have h1 : upsert_ad db offer t = (db, false) := by
    by_cases hT : truthy (pyGet offer "id") = false
    · simp [upsert_ad, hT]
    · simp only [Bool.not_eq_false] at hT
      simp [upsert_ad, hT, hbad]
  exact ⟨h1, by simp [process_page, page_step, h1]⟩

/-- C3 witness: the identifier "abc". -/
theorem upsert_invalid_id_skipped_witness :
    upsert_ad [] [("id", JVal.jstr "abc")] "t0" = ([], false) ∧
    process_page [] [[("id", JVal.jstr "abc")]] "t0" = ([], (0, 1)) :=
  upsert_invalid_id_skipped [] [("id", JVal.jstr "abc")] "t0" (by rfl)

/-- C10: a record whose identifier field is falsy (0, empty string, False,
None or missing) is skipped by the truthiness guard: upsert_ad returns
False and the table is unchanged, even for the numerically valid id 0. -/
theorem upsert_falsy_id_skipped (db : List AdRow) (offer : Offer) (t : String)
    (hfalsy : truthy (pyGet offer "id") = false) :
    upsert_ad db offer t = (db, false) := by
  simp [upsert_ad, hfalsy]

/-- C10 witness: an offer with identifier 0 is not inserted. -/
theorem upsert_falsy_id_skipped_witness :
    upsert_ad [] [("id", JVal.jint 0)] "t0" = ([], false) :=
  upsert_falsy_id_skipped [] [("id", JVal.jint 0)] "t0" (by rfl)

/-- C4: a 401 or 403 response on a page fetch causes no retry and no
backoff sleep, and immediately terminates the whole process with exit
code 1. -/
theorem fetch_auth_failure_exits (env : Nat → AttemptResult) (s : Nat) (body : JVal)
    (h0 : env 0 = AttemptResult.resp s body) (hs : s = 401 ∨ s = 403) :
    fetch_page env =
      { outcome := FetchOutcome.exit 1, attempts := 1, backoffs := 0 } := by
  unfold fetch_page fetch_loop
  rw [if_neg (by simp [MAX_RETRIES]), h0]
  rcases hs with rfl | rfl <;> simp

/-- C4 witness: a network that always answers 401. -/
theorem fetch_auth_failure_exits_witness :
    fetch_page (fun _ => AttemptResult.resp 401 JVal.jnull) =
      { outcome := FetchOutcome.exit 1, attempts := 1, backoffs := 0 } :=
  fetch_auth_failure_exits (fun _ => AttemptResult.resp 401 JVal.jnull) 401 JVal.jnull
    rfl (Or.inl rfl)

theorem fetch_loop_retry_aux (env : Nat → AttemptResult) :
    ∀ d j b, j + d = MAX_RETRIES →
      (∀ n, j ≤ n → n < MAX_RETRIES → retryable (env n)) →
      (fetch_loop env j b).attempts = MAX_RETRIES ∧
      isTerminalError (fetch_loop env j b).outcome = true := by
  intro d
  induction d with
  | zero =>
    intro j b hj _
    unfold fetch_loop
    rw [if_pos (by omega)]
    refine ⟨?_, rfl⟩
    show j = MAX_RETRIES
    omega
  | succ d ih =>
    intro j b hj h
    have hr := h j le_rfl (by omega)
    unfold fetch_loop
    rw [if_neg (by omega)]
    cases henv : env j with
    | resp s body =>
      dsimp only
      rw [henv] at hr
      simp only [retryable] at hr
      have hnot : ¬(s = 401 ∨ s = 403) := by omega
      rw [if_neg hnot]
      rcases hr with rfl | h5
      · rw [if_pos rfl]
        by_cases hlast : j < MAX_RETRIES - 1
        · rw [if_pos hlast]
          exact ih (j + 1) (b + 1) (by omega) (fun n hn hn5 => h n (by omega) hn5)
        · rw [if_neg hlast]
          refine ⟨?_, rfl⟩
          show j + 1 = MAX_RETRIES
          omega
      · rw [if_neg (by omega), if_pos h5]
        by_cases hlast : j < MAX_RETRIES - 1
        · rw [if_pos hlast]
          exact ih (j + 1) (b + 1) (by omega) (fun n hn hn5 => h n (by omega) hn5)
        · rw [if_neg hlast]
          refine ⟨?_, rfl⟩
          show j + 1 = MAX_RETRIES
          omega
    | timeout =>
      dsimp only
      by_cases hlast : j < MAX_RETRIES - 1
      · rw [if_pos hlast]
        exact ih (j + 1) (b + 1) (by omega) (fun n hn hn5 => h n (by omega) hn5)
      · rw [if_neg hlast]
        refine ⟨?_, rfl⟩
        show j + 1 = MAX_RETRIES
        omega
    | connError =>
      dsimp only
      by_cases hlast : j < MAX_RETRIES - 1
      · rw [if_pos hlast]
        exact ih (j + 1) (b + 1) (by omega) (fun n hn hn5 => h n (by omega) hn5)
      · rw [if_neg hlast]
        refine ⟨?_, rfl⟩
        show j + 1 = MAX_RETRIES
        omega

/-- C6: when every attempt fails with a retryable condition (429, 5xx,
timeout or connection error), fetch_page makes exactly MAX_RETRIES = 5
attempts and then surfaces a terminal error to the caller instead of
returning a value. -/
theorem fetch_retries_exhausted (env : Nat → AttemptResult)
    (h : ∀ n, n < MAX_RETRIES → retryable (env n)) :
    (fetch_page env).attempts = MAX_RETRIES ∧
    isTerminalError (fetch_page env).outcome = true :=
  fetch_loop_retry_aux env MAX_RETRIES 0 0 (by omega) (fun n _ hn5 => h n hn5)

/-- C6 witness: a network that always answers 503. -/
theorem fetch_retries_exhausted_witness :
    (fetch_page (fun _ => AttemptResult.resp 503 JVal.jnull)).attempts = MAX_RETRIES ∧
    isTerminalError (fetch_page (fun _ => AttemptResult.resp 503 JVal.jnull)).outcome = true :=
  fetch_retries_exhausted (fun _ => AttemptResult.resp 503 JVal.jnull)
    (fun n _ => Or.inr (by omega))

/-- C5: the computed backoff delay equals min(base * 2 ^ attempt,
max_delay), is non-decreasing in the attempt index, is capped at
max_delay, and the jitter drawn by random.uniform lies in
[0, 0.1 * delay]. -/
theorem backoff_schedule (base maxd : ℚ) (hbase : 0 ≤ base) (m n : Nat) (hmn : m ≤ n)
    (j : ℚ) (hj : backoff_jitter_ok (exponential_backoff_delay n base maxd) j) :
    exponential_backoff_delay n base maxd = min (base * 2 ^ n) maxd ∧
    exponential_backoff_delay m base maxd ≤ exponential_backoff_delay n base maxd ∧
    exponential_backoff_delay n base maxd ≤ maxd ∧
    0 ≤ j ∧ j ≤ (1 / 10) * exponential_backoff_delay n base maxd := by
  obtain ⟨hj1, hj2⟩ := hj
  refine ⟨rfl, ?_, min_le_right _ _, hj1, by linarith⟩
  unfold exponential_backoff_delay
  apply min_le_min _ le_rfl
  apply mul_le_mul_of_nonneg_left _ hbase
  exact pow_le_pow_right₀ (by norm_num) hmn

/-- C5 witness: defaults base 1 and cap 60, attempts 2 and 3, jitter 1/20. -/
theorem backoff_schedule_witness :
    exponential_backoff_delay 3 1 60 = min ((1 : ℚ) * 2 ^ 3) 60 ∧
    exponential_backoff_delay 2 1 60 ≤ exponential_backoff_delay 3 1 60 ∧
    exponential_backoff_delay 3 1 60 ≤ 60 ∧
    (0 : ℚ) ≤ 1 / 20 ∧ (1 / 20 : ℚ) ≤ (1 / 10) * exponential_backoff_delay 3 1 60 :=
  backoff_schedule 1 60 (by norm_num) 2 3 (by norm_num) (1 / 20)
    (by
      refine ⟨by norm_num, ?_⟩
      show (1 / 20 : ℚ) ≤ exponential_backoff_delay 3 1 60 * (1 / 10)
      have h8 : exponential_backoff_delay 3 1 60 = 8 := by
        simp only [exponential_backoff_delay]
        rw [min_eq_left (by norm_num)]
        norm_num
      rw [h8]
      norm_num)

/-- The ads component of the page fold does not depend on the running
tallies. -/
theorem foldl_page_step_ads (offers : List Offer) :
    ∀ (now : String) (ads : List AdRow) (p q : Nat × Nat),
      (offers.foldl (page_step now) (ads, p)).1 = (offers.foldl (page_step now) (ads, q)).1 := by
  induction offers with
  | nil => intros; rfl
  | cons o rest ih =>
    intro now ads p q
    simp only [List.foldl_cons, page_step]
    exact ih now _ _ _

/-- Without a fault, the page transaction commits exactly the fold of the
page's upserts. -/
theorem page_txn_go_none_ads (offers : List Offer) :
    ∀ (pend : List AdRow) (now : String) (idx n u : Nat),
      ∃ n2 u2, page_txn_go pend offers now none idx n u =
        TxnResult.committed (process_page pend offers now).1 n2 u2 := by
  induction offers with
  | nil =>
    intro pend now idx n u
    exact ⟨n, u, rfl⟩
  | cons offer rest ih =>
    intro pend now idx n u
    obtain ⟨n2, u2, hh⟩ := ih (upsert_ad pend offer now).1 now (idx + 1)
      (if (upsert_ad pend offer now).2 then n + 1 else n)
      (if (upsert_ad pend offer now).2 then u else u + 1)
    refine ⟨n2, u2, ?_⟩
    simp only [page_txn_go]
    rw [if_neg (by simp)]
    rw [hh]
    have hsame : (process_page pend (offer :: rest) now).1
        = (process_page (upsert_ad pend offer now).1 rest now).1 := by
      simp only [process_page, List.foldl_cons, page_step]
      exact foldl_page_step_ads rest now _ _ _
    rw [hsame]

/-- A fault at a record index inside the page aborts the transaction. -/
theorem page_txn_go_abort (offers : List Offer) :
    ∀ (pend : List AdRow) (now : String) (j idx n u : Nat),
      idx ≤ j → j < idx + offers.length →
      page_txn_go pend offers now (some j) idx n u = TxnResult.aborted j := by
  induction offers with
  | nil =>
    intro pend now j idx n u h1 h2
    simp at h2
    omega
  | cons offer rest ih =>
    intro pend now j idx n u h1 h2
    by_cases hje : j = idx
    · subst hje
      simp [page_txn_go]
    · simp only [page_txn_go]
      rw [if_neg (by simp [hje])]
      exact ih _ now j (idx + 1) _ _ (by omega) (by simp at h2 ⊢; omega)

/-- C8: the upserts of one page happen inside a single transaction with one
commit: without a fault the committed table is exactly the fold of all the
page's upserts, and a fault at any record of the page leaves the durable
table unchanged (none of the page's upserts apply). -/
theorem page_atomicity (durable : List AdRow) (offers : List Offer) (now : String) :
    (ads_after_page durable offers now none = (process_page durable offers now).1) ∧
    ∀ j, j < offers.length → ads_after_page durable offers now (some j) = durable := by
  constructor
  · obtain ⟨n2, u2, hh⟩ := page_txn_go_none_ads offers durable now 0 0 0
    simp [ads_after_page, page_txn, hh]
  · intro j hj
    have habort := page_txn_go_abort offers durable now j 0 0 0 (by omega) (by omega)
    simp [ads_after_page, page_txn, habort]

/-- C8 witness: a one-record page, committed when fault-free and rolled
back when the fault hits record 0. -/
theorem page_atomicity_witness :
    (ads_after_page [] [[("id", JVal.jint 7)]] "t0" none
      = (process_page [] [[("id", JVal.jint 7)]] "t0").1) ∧
    ads_after_page [] [[("id", JVal.jint 7)]] "t0" (some 0) = [] :=
  ⟨(page_atomicity [] [[("id", JVal.jint 7)]] "t0").1,
   (page_atomicity [] [[("id", JVal.jint 7)]] "t0").2 0 (by simp)⟩

/-- Closed form of expected_after: the ads fold, the counter totals, one
commit per page, and one fetch per page plus the final terminating fetch. -/
theorem expected_after_spec (P : Nat) (pt : Nat → String) (pages : List (List Offer)) :
    ∀ st : CrawlState,
      expected_after P pt st pages =
        { ads := (apply_pages pt st.ads st.pages pages).1
          run := st.run
          commits := st.commits
            ++ (List.range pages.length).map (fun j => CommitEvent.page (st.pages + j))
          fetches := st.fetches + pages.length + 1
          newCount := st.newCount + (apply_pages pt st.ads st.pages pages).2.1
          updatedCount := st.updatedCount + (apply_pages pt st.ads st.pages pages).2.2
          pages := st.pages + pages.length
          startIndex := st.startIndex + pages.length * P } := by
  induction pages with
  | nil =>
    intro st
    simp only [expected_after, apply_pages, List.length_nil, List.range_zero, List.map_nil,
      List.append_nil]
    cases st
    simp
  | cons offers rest ih =>
    intro st
    simp only [expected_after, apply_pages]
    rw [ih]
    simp only [List.length_cons]
    congr 1
    · simp only [List.range_succ_eq_map, List.map_cons, List.map_map]
      rw [List.append_assoc, List.singleton_append]
      have hfun : ((fun j => CommitEvent.page (st.pages + j)) ∘ Nat.succ)
          = (fun j => CommitEvent.page (st.pages + 1 + j)) := by
        funext a
        simp only [Function.comp_apply]
        congr 1
        omega
      rw [hfun]
      simp
    · omega
    · omega
    · omega
    · omega
    · ring

/-- The crawl loop, run where the first k page fetches succeed with
nonempty pages that do not reach the reported total, and fetch k fails:
it behaves as expected_after on those k pages. -/
theorem crawl_loop_stops (P : Nat) (env : Nat → Option (List Offer × Nat))
    (pt : Nat → String) :
    ∀ (k : Nat) (st : CrawlState) (fuel : Nat),
      (∀ i, i < k → ∃ pr, env (st.startIndex + i * P) = some pr ∧ pr.1 ≠ [] ∧
        st.startIndex + i * P + P < pr.2) →
      env (st.startIndex + k * P) = none →
      k < fuel →
      crawl_loop P env pt fuel st =
        expected_after P pt st
          ((List.range k).map (fun i => pageOffers env (st.startIndex + i * P))) := by
  intro k
  induction k with
  | zero =>
    intro st fuel _ hfail hfuel
    rw [show st.startIndex + 0 * P = st.startIndex by omega] at hfail
    cases fuel with
    | zero => omega
    | succ f =>
      simp only [crawl_loop]
      rw [hfail]
      simp [expected_after]
  | succ k ih =>
    intro st fuel hsucc hfail hfuel
    cases fuel with
    | zero => omega
    | succ f =>
      obtain ⟨pr, henv, hne, hlt⟩ := hsucc 0 (by omega)
      rw [show st.startIndex + 0 * P = st.startIndex by omega] at henv
      rw [show st.startIndex + 0 * P + P = st.startIndex + P by ring] at hlt
      simp only [crawl_loop]
      rw [henv]
      dsimp only
      rw [if_neg (by simpa [List.isEmpty_iff] using hne), if_neg (by omega)]
      rw [ih _ f ?hsucc2 ?hfail2 (by omega)]
      case hsucc2 =>
        intro i hi
        obtain ⟨pr2, henv2, hne2, hlt2⟩ := hsucc (i + 1) (by omega)
        refine ⟨pr2, ?_, hne2, ?_⟩
        · rw [show st.startIndex + P + i * P = st.startIndex + (i + 1) * P by ring]
          exact henv2
        · rw [show st.startIndex + P + i * P + P = st.startIndex + (i + 1) * P + P by ring]
          exact hlt2
      case hfail2 =>
        rw [show st.startIndex + P + k * P = st.startIndex + (k + 1) * P by ring]
        exact hfail
      rw [List.range_succ_eq_map, List.map_cons, List.map_map]
      simp only [expected_after]
      have hpo : pageOffers env (st.startIndex + 0 * P) = pr.1 := by
        simp [pageOffers, show st.startIndex + 0 * P = st.startIndex by omega, henv]
      rw [hpo]
      have hfun : ((fun i => pageOffers env (st.startIndex + i * P)) ∘ Nat.succ)
          = fun i => pageOffers env (st.startIndex + P + i * P) := by
        funext a
        simp only [Function.comp_apply]
        congr 1
        rw [Nat.succ_mul]
        ring
      rw [hfun]

/-- C7: when the first k page fetches succeed and the next fails after
retries, the crawl loop stops gracefully: the ads table holds exactly the
rows committed by the k earlier pages (no rollback), and the run row is
still finalized — non-null end timestamp, final counters, and exactly one
finalization commit. -/
theorem crawl_graceful_stop (P : Nat) (env : Nat → Option (List Offer × Nat))
    (pt : Nat → String) (t0 tEnd rid : String) (fuel : Nat) (ads0 : List AdRow) (k : Nat)
    (hsucc : ∀ i, i < k → ∃ pr, env (i * P) = some pr ∧ pr.1 ≠ [] ∧ i * P + P < pr.2)
    (hfail : env (k * P) = none) (hfuel : k < fuel) :
    (crawl_all_ads P env pt t0 tEnd rid fuel ads0).ads
      = (apply_pages pt ads0 0 ((List.range k).map (fun i => pageOffers env (i * P)))).1 ∧
    (crawl_all_ads P env pt t0 tEnd rid fuel ads0).run.ended_at = some tEnd ∧
    (crawl_all_ads P env pt t0 tEnd rid fuel ads0).run.pages_fetched = k ∧
    (crawl_all_ads P env pt t0 tEnd rid fuel ads0).run.ads_fetched
      = (apply_pages pt ads0 0 ((List.range k).map (fun i => pageOffers env (i * P)))).2.1
      + (apply_pages pt ads0 0 ((List.range k).map (fun i => pageOffers env (i * P)))).2.2 ∧
    (crawl_all_ads P env pt t0 tEnd rid fuel ads0).commits
      = CommitEvent.runCreate ::
        ((List.range k).map CommitEvent.page ++ [CommitEvent.runFinalize]) ∧
    ((crawl_all_ads P env pt t0 tEnd rid fuel ads0).commits).count CommitEvent.runFinalize
      = 1 := by
  have hfun0 : (fun i => pageOffers env (0 + i * P)) = fun i => pageOffers env (i * P) := by
    funext i
    rw [Nat.zero_add]
  have hloop := crawl_loop_stops P env pt k
    { ads := ads0
      run :=
        { run_id := rid, started_at := t0, ended_at := none, ads_fetched := 0,
          pages_fetched := 0, notes := some "Full crawl of all APEC job ads" }
      commits := [CommitEvent.runCreate]
      fetches := 0, newCount := 0, updatedCount := 0, pages := 0, startIndex := 0 }
    fuel
    (by
      intro i hi
      obtain ⟨pr, h1, h2, h3⟩ := hsucc i hi
      exact ⟨pr, by simpa using h1, h2, by simpa using h3⟩)
    (by simpa using hfail) hfuel
  rw [expected_after_spec] at hloop
  dsimp only at hloop
  rw [hfun0] at hloop
  simp only [crawl_all_ads]
  rw [hloop]
  dsimp only
  simp only [List.length_map, List.length_range, Nat.zero_add]
  have hcount : ((List.range k).map CommitEvent.page).count CommitEvent.runFinalize
      = 0 := by
    apply List.count_eq_zero.mpr
    intro hmem
    obtain ⟨j, _, hj⟩ := List.mem_map.mp hmem
    exact absurd hj (by simp)
  refine ⟨trivial, trivial, trivial, trivial, ?_, ?_⟩
  · simp [List.append_assoc, List.singleton_append]
  · simp only [List.count_append, List.count_cons, List.count_nil, List.count_singleton]
    simp only [List.count] at hcount ⊢
    rw [hcount]
    simp

/-- C7 witness: one committed page, then a failed fetch at offset 100. -/
theorem crawl_graceful_stop_witness :
    (crawl_all_ads 100 envOnePage constTime "t0" "t1" "r" 3 []).ads
      = (apply_pages constTime [] 0
          ((List.range 1).map (fun i => pageOffers envOnePage (i * 100)))).1 ∧
    (crawl_all_ads 100 envOnePage constTime "t0" "t1" "r" 3 []).run.ended_at = some "t1" ∧
    (crawl_all_ads 100 envOnePage constTime "t0" "t1" "r" 3 []).run.pages_fetched = 1 ∧
    (crawl_all_ads 100 envOnePage constTime "t0" "t1" "r" 3 []).run.ads_fetched
      = (apply_pages constTime [] 0
          ((List.range 1).map (fun i => pageOffers envOnePage (i * 100)))).2.1
      + (apply_pages constTime [] 0
          ((List.range 1).map (fun i => pageOffers envOnePage (i * 100)))).2.2 ∧
    (crawl_all_ads 100 envOnePage constTime "t0" "t1" "r" 3 []).commits
      = CommitEvent.runCreate ::
        ((List.range 1).map CommitEvent.page ++ [CommitEvent.runFinalize]) ∧
    ((crawl_all_ads 100 envOnePage constTime "t0" "t1" "r" 3 []).commits).count
        CommitEvent.runFinalize = 1 :=
  crawl_graceful_stop 100 envOnePage constTime "t0" "t1" "r" 3 [] 1
    (by
      intro i hi
      have hi0 : i = 0 := by omega
      subst hi0
      exact ⟨([[("id", JVal.jint 1)]], 300), rfl, by simp, by norm_num⟩)
    rfl (by omega)

/-- The number of fetches performed by the crawl loop against the sliced
environment, starting strictly inside the result set: the ceiling of the
remaining records over the page size. -/
theorem crawl_loop_fetches (T P : Nat) (record : Nat → Offer) (pt : Nat → String)
    (hP : 0 < P) :
    ∀ (fuel : Nat) (st : CrawlState),
      st.startIndex < T → (T - st.startIndex + P - 1) / P ≤ fuel →
      (crawl_loop P (envSlice T P record) pt fuel st).fetches
        = st.fetches + (T - st.startIndex + P - 1) / P := by
  intro fuel
  induction fuel with
  | zero =>
    intro st h1 h2
    exfalso
    have hceil : 1 ≤ (T - st.startIndex + P - 1) / P :=
      (Nat.one_le_div_iff hP).mpr (by omega)
    omega
  | succ f ih =>
    intro st h1 h2
    simp only [crawl_loop, envSlice]
    have hlen : min (st.startIndex + P) T - st.startIndex ≠ 0 := by omega
    rw [if_neg (by
      intro hE
      rw [List.isEmpty_iff] at hE
      have := congrArg List.length hE
      simp [List.length_range'] at this
      omega)]
    by_cases hstop : T ≤ st.startIndex + P
    · rw [if_pos hstop]
      have hone : (T - st.startIndex + P - 1) / P = 1 := by
        rw [show T - st.startIndex + P - 1 = (T - st.startIndex - 1) + P by omega,
          Nat.add_div_right _ hP, Nat.div_eq_of_lt (by omega)]
      dsimp only
      omega
    · rw [if_neg (by omega)]
      rw [ih _ (by dsimp only; omega) (by
        dsimp only
        rw [show T - st.startIndex + P - 1
            = (T - (st.startIndex + P) + P - 1) + P by omega] at h2
        rw [Nat.add_div_right _ hP] at h2
        omega)]
      dsimp only
      rw [show T - st.startIndex + P - 1
          = (T - (st.startIndex + P) + P - 1) + P by omega,
        Nat.add_div_right _ hP]
      omega

/-- C2 (amended): with page size P > 0, when the API reports total T and
serves the records in positions i..min(i+P,T)-1 at offset i, the crawl
loop issues exactly ceil(T/P) page fetches when T ≥ 1 (stopping at the
first page whose startIndex + P reaches T), and when T = 0 it issues the
single fetch whose empty results page terminates the loop. -/
theorem crawl_pagination_termination (T P : Nat) (record : Nat → Offer)
    (pt : Nat → String) (t0 t1 rid : String) (fuel : Nat) (ads0 : List AdRow)
    (hP : 0 < P) (hfuel1 : 1 ≤ fuel) (hfuelC : (T + P - 1) / P ≤ fuel) :
    (0 < T →
      (crawl_all_ads P (envSlice T P record) pt t0 t1 rid fuel ads0).fetches
        = (T + P - 1) / P) ∧
    (T = 0 →
      (crawl_all_ads P (envSlice T P record) pt t0 t1 rid fuel ads0).fetches = 1) := by
  constructor
  · intro hT
    simp only [crawl_all_ads]
    rw [crawl_loop_fetches T P record pt hP fuel _ (by simp; omega)
      (by simpa using hfuelC)]
    simp
  · intro hT
    subst hT
    cases fuel with
    | zero => omega
    | succ f =>
      simp [crawl_all_ads, crawl_loop, envSlice, Nat.min_zero, List.range'_zero]

/-- C2 witness: T = 250 records at page size 100 take ceil(250/100) = 3
fetches. -/
theorem crawl_pagination_termination_witness :
    (0 < 250 →
      (crawl_all_ads 100 (envSlice 250 100 (fun _ => [])) constTime "t0" "t1" "r" 3 []).fetches
        = (250 + 100 - 1) / 100) ∧
    ((250 : Nat) = 0 →
      (crawl_all_ads 100 (envSlice 250 100 (fun _ => [])) constTime "t0" "t1" "r" 3 []).fetches
        = 1) :=
  crawl_pagination_termination 250 100 (fun _ => []) constTime "t0" "t1" "r" 3 []
    (by norm_num) (by norm_num) (by norm_num)

/-- C2 counterexample: at T = 0 the driver still issues one page fetch
(whose empty page ends the loop), while ceil(T/P) = 0; so "exactly
ceil(T/P) page fetches" fails for T = 0. -/
theorem crawl_pagination_claim_false_at_zero :
    (crawl_all_ads 100 (envSlice 0 100 (fun _ => [])) constTime "t0" "t1" "r" 5 []).fetches
      = 1 ∧
    (0 + 100 - 1) / 100 = 0 ∧
    ¬((crawl_all_ads 100 (envSlice 0 100 (fun _ => [])) constTime "t0" "t1" "r" 5 []).fetches
      = (0 + 100 - 1) / 100) := by
  have h1 : (crawl_all_ads 100 (envSlice 0 100 (fun _ => [])) constTime "t0" "t1" "r" 5
      []).fetches = 1 := rfl
  refine ⟨h1, by norm_num, ?_⟩
  rw [h1]
  norm_num

/-! Facts about the decimal printer and the digit reader. -/

theorem digitChar_isDigit : ∀ d, d < 10 → (Nat.digitChar d).isDigit = true := by decide

theorem charDigitVal_digitChar : ∀ d, d < 10 → charDigitVal (Nat.digitChar d) = d := by decide

theorem digitChar_not_ws : ∀ d, d < 10 → isWsChar (Nat.digitChar d) = false := by decide

theorem takeDigits_noLead {l : List Char} (h : noLeadDigit l = true) :
    takeDigits l = ([], l) := by
  cases l with
  | nil => rfl
  | cons c rest =>
    simp only [noLeadDigit, Bool.not_eq_true'] at h
    simp [takeDigits, h]

theorem takeDigits_natChars_gen (m : Nat) : ∀ tail : List Char,
    takeDigits (natChars m ++ tail)
      = (natDigits m ++ (takeDigits tail).1, (takeDigits tail).2) := by
  induction m using Nat.strong_induction_on with
  | _ m ih =>
    intro tail
    by_cases h10 : m < 10
    · rw [natChars, natDigits, dif_pos h10, dif_pos h10]
      simp [takeDigits, digitChar_isDigit m h10, charDigitVal_digitChar m h10]
    · rw [natChars, natDigits, dif_neg h10, dif_neg h10, List.append_assoc,
        ih (m / 10) (Nat.div_lt_self (by omega) (by omega))]
      simp only [List.cons_append, List.nil_append]
      simp [takeDigits, digitChar_isDigit (m % 10) (by omega),
        charDigitVal_digitChar (m % 10) (by omega)]

theorem takeDigits_natChars (m : Nat) (rest : List Char) (h : noLeadDigit rest = true) :
    takeDigits (natChars m ++ rest) = (natDigits m, rest) := by
  rw [takeDigits_natChars_gen, takeDigits_noLead h]
  simp

theorem digitsVal_append_one (ds : List Nat) (d : Nat) :
    digitsVal (ds ++ [d]) = 10 * digitsVal ds + d := by
  simp [digitsVal, List.foldl_append]

theorem digitsVal_natDigits (m : Nat) : digitsVal (natDigits m) = m := by
  induction m using Nat.strong_induction_on with
  | _ m ih =>
    by_cases h10 : m < 10
    · rw [natDigits, dif_pos h10]
      simp [digitsVal]
    · rw [natDigits, dif_neg h10, digitsVal_append_one,
        ih (m / 10) (Nat.div_lt_self (by omega) (by omega))]
      omega

theorem natDigits_ne_nil (m : Nat) : natDigits m ≠ [] := by
  rw [natDigits]
  by_cases h10 : m < 10 <;> simp [h10]

theorem natChars_head (m : Nat) :
    ∃ d tl, d < 10 ∧ natChars m = Nat.digitChar d :: tl := by
  induction m using Nat.strong_induction_on with
  | _ m ih =>
    by_cases h10 : m < 10
    · exact ⟨m, [], h10, by rw [natChars, dif_pos h10]⟩
    · obtain ⟨d, tl, hd, hnc⟩ := ih (m / 10) (Nat.div_lt_self (by omega) (by omega))
      exact ⟨d, tl ++ [Nat.digitChar (m % 10)], hd, by
        rw [natChars, dif_neg h10, hnc]
        rfl⟩

/-! Facts about string escaping. -/

theorem hexVal_digitChar : ∀ d, d < 16 → hexVal (Nat.digitChar d) = some d := by decide

theorem char_ofNat_toNat {c : Char} (h : c.toNat < 55296) : Char.ofNat c.toNat = c := by
  have hv : c.toNat.isValidChar := Or.inl h
  apply Char.eq_of_val_eq
  rw [Char.ofNat, dif_pos hv]
  apply UInt32.eq_of_toBitVec_eq
  apply BitVec.eq_of_toNat_eq
  simp [Char.ofNatAux, Char.toNat]
  rfl

theorem parseStrBody_escChars (cs : List Char) : ∀ rest,
    parseStrBody (escChars cs ++ '"' :: rest) = some (cs, rest) := by
  induction cs with
  | nil =>
    intro rest
    simp only [escChars, List.nil_append]
    rw [parseStrBody.eq_def]
    dsimp only
    rw [if_pos rfl]
  | cons c cs ih =>
    intro rest
    simp only [escChars, List.append_assoc]
    by_cases h1 : c = '"'
    · subst h1
      rw [show escChar '"' = ['\\', '"'] from rfl]
      simp only [List.cons_append, List.nil_append]
      rw [parseStrBody.eq_def]
      dsimp only
      rw [if_neg (by decide), if_pos rfl, if_neg (by decide)]
      rw [show unescChar '"' = some '"' from rfl]
      dsimp only
      rw [ih rest]
    · by_cases h2 : c = '\\'
      · subst h2
        rw [show escChar '\\' = ['\\', '\\'] from rfl]
        simp only [List.cons_append, List.nil_append]
        rw [parseStrBody.eq_def]
        dsimp only
        rw [if_neg (by decide), if_pos rfl, if_neg (by decide)]
        rw [show unescChar '\\' = some '\\' from rfl]
        dsimp only
        rw [ih rest]
      · by_cases h3 : c = '\n'
        · subst h3
          rw [show escChar '\n' = ['\\', 'n'] from rfl]
          simp only [List.cons_append, List.nil_append]
          rw [parseStrBody.eq_def]
          dsimp only
          rw [if_neg (by decide), if_pos rfl, if_neg (by decide)]
          rw [show unescChar 'n' = some '\n' from rfl]
          dsimp only
          rw [ih rest]
        · by_cases h4 : c = '\t'
          · subst h4
            rw [show escChar '\t' = ['\\', 't'] from rfl]
            simp only [List.cons_append, List.nil_append]
            rw [parseStrBody.eq_def]
            dsimp only
            rw [if_neg (by decide), if_pos rfl, if_neg (by decide)]
            rw [show unescChar 't' = some '\t' from rfl]
            dsimp only
            rw [ih rest]
          · by_cases h5 : c = '\r'
            · subst h5
              rw [show escChar '\r' = ['\\', 'r'] from rfl]
              simp only [List.cons_append, List.nil_append]
              rw [parseStrBody.eq_def]
              dsimp only
              rw [if_neg (by decide), if_pos rfl, if_neg (by decide)]
              rw [show unescChar 'r' = some '\r' from rfl]
              dsimp only
              rw [ih rest]
            · by_cases h6 : c.toNat = 8
              · rw [show escChar c = ['\\', 'b'] by
                  simp [escChar, h1, h2, h3, h4, h5, h6]]
                simp only [List.cons_append, List.nil_append]
                rw [parseStrBody.eq_def]
                dsimp only
                rw [if_neg (by decide), if_pos rfl, if_neg (by decide)]
                rw [show unescChar 'b' = some (Char.ofNat 8) from rfl]
                dsimp only
                rw [ih rest]
                rw [show Char.ofNat 8 = c by
                  rw [← h6]
                  exact char_ofNat_toNat (by omega)]
              · by_cases h7 : c.toNat = 12
                · rw [show escChar c = ['\\', 'f'] by
                    simp [escChar, h1, h2, h3, h4, h5, h6, h7]]
                  simp only [List.cons_append, List.nil_append]
                  rw [parseStrBody.eq_def]
                  dsimp only
                  rw [if_neg (by decide), if_pos rfl, if_neg (by decide)]
                  rw [show unescChar 'f' = some (Char.ofNat 12) from rfl]
                  dsimp only
                  rw [ih rest]
                  rw [show Char.ofNat 12 = c by
                    rw [← h7]
                    exact char_ofNat_toNat (by omega)]
                · by_cases h8 : c.toNat < 32
                  · rw [show escChar c = ['\\', 'u', '0', '0',
                        hexDigitChar (c.toNat / 16), hexDigitChar (c.toNat % 16)] by
                      simp [escChar, h1, h2, h3, h4, h5, h6, h7, h8]]
                    simp only [List.cons_append, List.nil_append]
                    rw [parseStrBody.eq_def]
                    dsimp only
                    rw [if_neg (by decide), if_pos rfl, if_pos rfl]
                    rw [show hexDigitChar (c.toNat / 16) = Nat.digitChar (c.toNat / 16)
                        from rfl,
                      show hexDigitChar (c.toNat % 16) = Nat.digitChar (c.toNat % 16)
                        from rfl]
                    rw [show hexVal '0' = some 0 from rfl,
                      hexVal_digitChar (c.toNat / 16) (by omega),
                      hexVal_digitChar (c.toNat % 16) (by omega)]
                    dsimp only
                    rw [ih rest]
                    rw [show ((0 * 16 + 0) * 16 + c.toNat / 16) * 16 + c.toNat % 16
                        = c.toNat by omega]
                    rw [char_ofNat_toNat (by omega)]
                  · rw [show escChar c = [c] by
                      simp [escChar, h1, h2, h3, h4, h5, h6, h7, h8]]
                    simp only [List.cons_append, List.nil_append]
                    rw [parseStrBody.eq_def]
                    dsimp only
                    rw [if_neg h1, if_neg h2]
                    rw [ih rest]

/-! Facts about whitespace skipping and the heads of dumped values. -/

theorem skipWs_not_ws {c : Char} (h : isWsChar c = false) (l : List Char) :
    skipWs (c :: l) = c :: l := by
  simp [skipWs, h]

theorem skipWs_cons_ws {c : Char} (h : isWsChar c = true) (l : List Char) :
    skipWs (c :: l) = skipWs l := by
  simp [skipWs, h]

theorem parseVal_cons_space (fuel : Nat) (l : List Char) :
    parseVal fuel (' ' :: l) = parseVal fuel l := by
  cases fuel with
  | zero => rfl
  | succ f =>
    simp only [parseVal]
    rw [skipWs_cons_ws (by decide)]

theorem parseItems_cons_space (fuel : Nat) (l : List Char) :
    parseItems fuel (' ' :: l) = parseItems fuel l := by
  cases fuel with
  | zero => rfl
  | succ f =>
    simp only [parseItems]
    rw [parseVal_cons_space]

theorem parseFields_cons_space (fuel : Nat) (l : List Char) :
    parseFields fuel (' ' :: l) = parseFields fuel l := by
  cases fuel with
  | zero => rfl
  | succ f =>
    simp only [parseFields]
    rw [skipWs_cons_ws (by decide)]

theorem digitChar_ne_rbracket : ∀ d, d < 10 → Nat.digitChar d ≠ ']' := by decide

/-- Every dumped value starts with a character that is not whitespace and
not a closing bracket. -/
theorem jdump_head (v : JVal) :
    ∃ c tl, jdumpChars v = c :: tl ∧ isWsChar c = false ∧ c ≠ ']' := by
  cases v with
  | jnull => exact ⟨'n', ['u', 'l', 'l'], by simp [jdumpChars], by decide, by decide⟩
  | jbool b =>
    cases b with
    | false => exact ⟨'f', ['a', 'l', 's', 'e'], by simp [jdumpChars], by decide, by decide⟩
    | true => exact ⟨'t', ['r', 'u', 'e'], by simp [jdumpChars], by decide, by decide⟩
  | jint n =>
    by_cases hn : n < 0
    · exact ⟨'-', natChars n.natAbs, by simp [jdumpChars, intChars, hn], by decide, by decide⟩
    · obtain ⟨d, tl, hd, hnc⟩ := natChars_head n.natAbs
      exact ⟨Nat.digitChar d, tl, by simp [jdumpChars, intChars, hn, hnc],
        digitChar_not_ws d hd, digitChar_ne_rbracket d hd⟩
  | jstr s =>
    exact ⟨'"', escChars s.data ++ ['"'], by simp [jdumpChars], by decide, by decide⟩
  | jarr xs =>
    exact ⟨'[', jdumpItems xs ++ [']'], by simp [jdumpChars], by decide, by decide⟩
  | jobj fs =>
    exact ⟨lbrace, jdumpFields fs ++ [rbrace], by simp [jdumpChars], by decide, by decide⟩

mutual

/-- Parsing the dump of a value consumes exactly the dump and returns the
value, for any following input that does not begin with a digit. -/
theorem parseVal_jdump (v : JVal) (fuel : Nat) (rest : List Char)
    (hf : fuelV v ≤ fuel) (hrest : noLeadDigit rest = true) :
    parseVal fuel (jdumpChars v ++ rest) = some (v, rest) := by
  cases v with
  | jnull =>
    cases fuel with
    | zero => simp [fuelV] at hf
    | succ f =>
      rw [show jdumpChars JVal.jnull = ['n', 'u', 'l', 'l'] by simp [jdumpChars]]
      simp only [parseVal, List.cons_append, List.nil_append]
      rw [skipWs_not_ws (by decide)]
      dsimp only
      rw [if_neg (by decide), if_neg (by decide), if_pos rfl]
      rw [if_pos (by decide)]
  | jbool b =>
    cases fuel with
    | zero => simp [fuelV] at hf
    | succ f =>
      cases b with
      | true =>
        rw [show jdumpChars (JVal.jbool true) = ['t', 'r', 'u', 'e'] by simp [jdumpChars]]
        simp only [parseVal, List.cons_append, List.nil_append]
        rw [skipWs_not_ws (by decide)]
        dsimp only
        rw [if_neg (by decide), if_neg (by decide), if_neg (by decide), if_pos rfl]
        rw [if_pos (by decide)]
      | false =>
        rw [show jdumpChars (JVal.jbool false) = ['f', 'a', 'l', 's', 'e'] by
          simp [jdumpChars]]
        simp only [parseVal, List.cons_append, List.nil_append]
        rw [skipWs_not_ws (by decide)]
        dsimp only
        rw [if_neg (by decide), if_neg (by decide), if_neg (by decide),
          if_neg (by decide), if_pos rfl]
        rw [if_pos (by decide)]
  | jint n =>
    cases fuel with
    | zero => simp [fuelV] at hf
    | succ f =>
      by_cases hn : n < 0
      · rw [show jdumpChars (JVal.jint n) = '-' :: natChars n.natAbs by
          simp [jdumpChars, intChars, hn]]
        simp only [parseVal, List.cons_append]
        rw [skipWs_not_ws (by decide)]
        dsimp only
        rw [if_neg (by decide), if_pos rfl]
        rw [takeDigits_natChars _ rest hrest]
        obtain ⟨d0, ds0, hnd⟩ : ∃ d0 ds0, natDigits n.natAbs = d0 :: ds0 := by
          cases hh : natDigits n.natAbs with
          | nil => exact absurd hh (natDigits_ne_nil _)
          | cons a b => exact ⟨a, b, rfl⟩
        rw [hnd]
        dsimp only
        rw [← hnd, digitsVal_natDigits]
        rw [show -((n.natAbs : Int)) = n by omega]
      · obtain ⟨d, tl, hd, hnc⟩ := natChars_head n.natAbs
        rw [show jdumpChars (JVal.jint n) = natChars n.natAbs by
          simp [jdumpChars, intChars, hn], hnc]
        simp only [parseVal, List.cons_append]
        rw [skipWs_not_ws (digitChar_not_ws d hd)]
        dsimp only
        rw [if_pos (digitChar_isDigit d hd)]
        rw [show Nat.digitChar d :: (tl ++ rest) = natChars n.natAbs ++ rest by
          rw [hnc]
          rfl]
        rw [takeDigits_natChars _ rest hrest]
        dsimp only
        rw [digitsVal_natDigits]
        rw [show ((n.natAbs : Nat) : Int) = n by omega]
  | jstr s =>
    cases fuel with
    | zero => simp [fuelV] at hf
    | succ f =>
      rw [show jdumpChars (JVal.jstr s) = '"' :: (escChars s.data ++ ['"']) by
        simp [jdumpChars]]
      simp only [parseVal, List.cons_append]
      rw [skipWs_not_ws (by decide)]
      dsimp only
      rw [if_neg (by decide), if_neg (by decide), if_neg (by decide),
        if_neg (by decide), if_neg (by decide), if_pos rfl]
      rw [show (escChars s.data ++ ['"']) ++ rest = escChars s.data ++ '"' :: rest by
        simp]
      rw [parseStrBody_escChars]
  | jarr xs =>
    cases fuel with
    | zero => simp [fuelV] at hf
    | succ f =>
      cases xs with
      | nil =>
        rw [show jdumpChars (JVal.jarr []) = ['[', ']'] by
          simp [jdumpChars, jdumpItems]]
        simp only [parseVal, List.cons_append, List.nil_append]
        rw [skipWs_not_ws (by decide)]
        dsimp only
        rw [if_neg (by decide), if_neg (by decide), if_neg (by decide),
          if_neg (by decide), if_neg (by decide), if_neg (by decide), if_pos rfl]
        rw [skipWs_not_ws (by decide)]
        dsimp only
        rw [if_pos rfl]
      | cons x xs2 =>
        rw [show jdumpChars (JVal.jarr (x :: xs2))
            = '[' :: (jdumpItems (x :: xs2) ++ [']']) by simp [jdumpChars]]
        simp only [parseVal, List.cons_append]
        rw [skipWs_not_ws (by decide)]
        dsimp only
        rw [if_neg (by decide), if_neg (by decide), if_neg (by decide),
          if_neg (by decide), if_neg (by decide), if_neg (by decide), if_pos rfl]
        rw [show (jdumpItems (x :: xs2) ++ [']']) ++ rest
            = jdumpItems (x :: xs2) ++ ']' :: rest by simp]
        obtain ⟨c0, tl0, hx, hws0, hnr0⟩ := jdump_head x
        obtain ⟨T, hT⟩ : ∃ T, jdumpItems (x :: xs2) = c0 :: T := by
          cases xs2 with
          | nil => exact ⟨tl0, by simp [jdumpItems, hx]⟩
          | cons y ys =>
            exact ⟨tl0 ++ (',' :: ' ' :: jdumpItems (y :: ys)), by
              simp [jdumpItems, hx]⟩
        rw [hT]
        simp only [List.cons_append]
        rw [skipWs_not_ws hws0]
        dsimp only
        rw [if_neg hnr0]
        rw [show c0 :: (T ++ ']' :: rest) = jdumpItems (x :: xs2) ++ ']' :: rest by
          rw [hT]
          rfl]
        rw [parseItems_jdump (x :: xs2) (by simp) f rest
          (by simp only [fuelV] at hf; omega)]
  | jobj fs =>
    cases fuel with
    | zero => simp [fuelV] at hf
    | succ f =>
      cases fs with
      | nil =>
        rw [show jdumpChars (JVal.jobj []) = [lbrace, rbrace] by
          simp [jdumpChars, jdumpFields]]
        simp only [parseVal, List.cons_append, List.nil_append]
        rw [skipWs_not_ws (by decide)]
        dsimp only
        rw [if_neg (by decide), if_neg (by decide), if_neg (by decide),
          if_neg (by decide), if_neg (by decide), if_neg (by decide),
          if_neg (by decide), if_pos rfl]
        rw [skipWs_not_ws (by decide)]
        dsimp only
        rw [if_pos rfl]
      | cons kv fs2 =>
        rw [show jdumpChars (JVal.jobj (kv :: fs2))
            = lbrace :: (jdumpFields (kv :: fs2) ++ [rbrace]) by simp [jdumpChars]]
        simp only [parseVal, List.cons_append]
        rw [skipWs_not_ws (by decide)]
        dsimp only
        rw [if_neg (by decide), if_neg (by decide), if_neg (by decide),
          if_neg (by decide), if_neg (by decide), if_neg (by decide),
          if_neg (by decide), if_pos rfl]
        rw [show (jdumpFields (kv :: fs2) ++ [rbrace]) ++ rest
            = jdumpFields (kv :: fs2) ++ rbrace :: rest by simp]
        obtain ⟨T, hT⟩ : ∃ T, jdumpFields (kv :: fs2) = '"' :: T := by
          obtain ⟨k, v⟩ := kv
          cases fs2 with
          | nil =>
            exact ⟨escChars k.data ++ ('"' :: ':' :: ' ' :: jdumpChars v), by
              simp [jdumpFields]⟩
          | cons g gs =>
            exact ⟨(escChars k.data ++ ('"' :: ':' :: ' ' :: jdumpChars v))
                ++ (',' :: ' ' :: jdumpFields (g :: gs)), by
              simp [jdumpFields]⟩
        rw [hT]
        simp only [List.cons_append]
        rw [skipWs_not_ws (by decide)]
        dsimp only
        rw [if_neg (by decide)]
        rw [show '"' :: (T ++ rbrace :: rest) = jdumpFields (kv :: fs2) ++ rbrace :: rest by
          rw [hT]
          rfl]
        rw [parseFields_jdump (kv :: fs2) (by simp) f rest
          (by simp only [fuelV] at hf; omega)]

/-- Parsing the dumped items of a nonempty array consumes them and the
closing bracket. -/
theorem parseItems_jdump (xs : List JVal) (hne : xs ≠ []) (fuel : Nat) (rest : List Char)
    (hf : fuelItems xs ≤ fuel) :
    parseItems fuel (jdumpItems xs ++ ']' :: rest) = some (xs, rest) := by
  cases xs with
  | nil => exact absurd rfl hne
  | cons x xs2 =>
    cases fuel with
    | zero => simp [fuelItems] at hf
    | succ f =>
      cases xs2 with
      | nil =>
        rw [show jdumpItems [x] = jdumpChars x by simp [jdumpItems]]
        simp only [parseItems]
        rw [parseVal_jdump x f (']' :: rest)
          (by simp only [fuelItems] at hf; omega) rfl]
        dsimp only
        rw [skipWs_not_ws (by decide)]
        dsimp only
        rw [if_pos rfl]
      | cons y ys =>
        rw [show jdumpItems (x :: y :: ys)
            = jdumpChars x ++ (',' :: ' ' :: jdumpItems (y :: ys)) by simp [jdumpItems]]
        rw [show (jdumpChars x ++ (',' :: ' ' :: jdumpItems (y :: ys))) ++ ']' :: rest
            = jdumpChars x ++ (',' :: ' ' :: (jdumpItems (y :: ys) ++ ']' :: rest)) by
          simp]
        simp only [parseItems]
        rw [parseVal_jdump x f (',' :: ' ' :: (jdumpItems (y :: ys) ++ ']' :: rest))
          (by simp only [fuelItems] at hf ⊢; omega) rfl]
        dsimp only
        rw [skipWs_not_ws (by decide)]
        dsimp only
        rw [if_neg (by decide), if_pos rfl]
        rw [parseItems_cons_space]
        rw [parseItems_jdump (y :: ys) (by simp) f rest
          (by simp only [fuelItems] at hf ⊢; omega)]

/-- Parsing the dumped fields of a nonempty object consumes them and the
closing brace. -/
theorem parseFields_jdump (fs : List (String × JVal)) (hne : fs ≠ []) (fuel : Nat)
    (rest : List Char) (hf : fuelFields fs ≤ fuel) :
    parseFields fuel (jdumpFields fs ++ rbrace :: rest) = some (fs, rest) := by
  cases fs with
  | nil => exact absurd rfl hne
  | cons kv fs2 =>
    obtain ⟨k, v⟩ := kv
    cases fuel with
    | zero => simp [fuelFields] at hf
    | succ f =>
      cases fs2 with
      | nil =>
        rw [show jdumpFields [(k, v)]
            = '"' :: (escChars k.data ++ ('"' :: ':' :: ' ' :: jdumpChars v)) by
          simp [jdumpFields]]
        simp only [parseFields, List.cons_append]
        rw [skipWs_not_ws (by decide)]
        dsimp only
        rw [if_pos rfl]
        rw [show (escChars k.data ++ ('"' :: ':' :: ' ' :: jdumpChars v)) ++ rbrace :: rest
            = escChars k.data ++ '"' :: (':' :: ' ' :: (jdumpChars v ++ rbrace :: rest)) by
          simp]
        rw [parseStrBody_escChars]
        dsimp only
        rw [skipWs_not_ws (by decide)]
        dsimp only
        rw [if_pos rfl]
        rw [parseVal_cons_space]
        rw [parseVal_jdump v f (rbrace :: rest)
          (by simp only [fuelFields] at hf; omega) rfl]
        dsimp only
        rw [skipWs_not_ws (by decide)]
        dsimp only
        rw [if_pos rfl]
      | cons g gs =>
        rw [show jdumpFields ((k, v) :: g :: gs)
            = ('"' :: (escChars k.data ++ ('"' :: ':' :: ' ' :: jdumpChars v)))
              ++ (',' :: ' ' :: jdumpFields (g :: gs)) by simp [jdumpFields]]
        rw [show (('"' :: (escChars k.data ++ ('"' :: ':' :: ' ' :: jdumpChars v)))
              ++ (',' :: ' ' :: jdumpFields (g :: gs))) ++ rbrace :: rest
            = '"' :: (escChars k.data
              ++ '"' :: (':' :: ' ' :: (jdumpChars v
                ++ ',' :: ' ' :: (jdumpFields (g :: gs) ++ rbrace :: rest)))) by
          simp]
        simp only [parseFields]
        rw [skipWs_not_ws (by decide)]
        dsimp only
        rw [if_pos rfl]
        rw [parseStrBody_escChars]
        dsimp only
        rw [skipWs_not_ws (by decide)]
        dsimp only
        rw [if_pos rfl]
        rw [parseVal_cons_space]
        rw [parseVal_jdump v f
          (',' :: ' ' :: (jdumpFields (g :: gs) ++ rbrace :: rest))
          (by simp only [fuelFields] at hf ⊢; omega) rfl]
        dsimp only
        rw [skipWs_not_ws (by decide)]
        dsimp only
        rw [if_neg (by decide), if_pos rfl]
        rw [parseFields_cons_space]
        rw [parseFields_jdump (g :: gs) (by simp) f rest
          (by simp only [fuelFields] at hf ⊢; omega)]

end

mutual

/-- The parse fuel needed for a value is covered by its dump length. -/
theorem fuelV_le_len (v : JVal) : fuelV v ≤ (jdumpChars v).length := by
  cases v with
  | jnull => simp [fuelV, jdumpChars]
  | jbool b => cases b <;> simp [fuelV, jdumpChars]
  | jint n =>
    obtain ⟨d, tl, _, hnc⟩ := natChars_head n.natAbs
    by_cases hn : n < 0 <;> simp [fuelV, jdumpChars, intChars, hn, hnc]
  | jstr s => simp [fuelV, jdumpChars]
  | jarr xs =>
    have h := fuelItems_le_len xs
    simp only [fuelV, jdumpChars, List.length_cons, List.length_append,
      List.length_singleton]
    omega
  | jobj fs =>
    have h := fuelFields_le_len fs
    simp only [fuelV, jdumpChars, List.length_cons, List.length_append,
      List.length_singleton]
    omega

/-- Fuel bound for dumped array items. -/
theorem fuelItems_le_len (xs : List JVal) : fuelItems xs ≤ (jdumpItems xs).length + 1 := by
  cases xs with
  | nil => simp [fuelItems, jdumpItems]
  | cons v vs =>
    cases vs with
    | nil =>
      have h := fuelV_le_len v
      simp only [fuelItems, jdumpItems]
      omega
    | cons w ws =>
      have h1 := fuelV_le_len v
      have h2 := fuelItems_le_len (w :: ws)
      simp only [fuelItems, jdumpItems, List.length_append, List.length_cons] at h2 ⊢
      omega

/-- Fuel bound for dumped object fields. -/
theorem fuelFields_le_len (fs : List (String × JVal)) :
    fuelFields fs ≤ (jdumpFields fs).length + 1 := by
  cases fs with
  | nil => simp [fuelFields, jdumpFields]
  | cons kv gs =>
    obtain ⟨k, v⟩ := kv
    cases gs with
    | nil =>
      have h := fuelV_le_len v
      simp only [fuelFields, jdumpFields, List.length_cons, List.length_append]
      omega
    | cons g gs2 =>
      have h1 := fuelV_le_len v
      have h2 := fuelFields_le_len (g :: gs2)
      simp only [fuelFields, jdumpFields, List.length_cons, List.length_append] at h2 ⊢
      omega

end

/-- json.loads inverts json.dumps on every JSON value. -/
theorem jparse_jdump (v : JVal) : jparse (jdumpStr v) = some v := by
  have hfuel : fuelV v ≤ (jdumpChars v).length + 1 :=
    le_trans (fuelV_le_len v) (by omega)
  have hp := parseVal_jdump v ((jdumpChars v).length + 1) [] hfuel rfl
  rw [List.append_nil] at hp
  simp only [jparse, jdumpStr]
  rw [hp]
  dsimp only
  rw [if_pos (show skipWs [] = [] from rfl)]

/-- C9: after upserting a record with a valid integer identifier, the
stored payload_json of that identifier's row parses back to a value
structurally equal to the ingested record (the most recent ingestion
wins, since the update branch replaces the payload). -/
theorem payload_roundtrip (db : List AdRow) (offer : Offer) (t : String) (oid : Int)
    (hT : truthy (pyGet offer "id") = true)
    (hP : pyInt (pyGet offer "id") = some oid)
    (db2 : List AdRow) (b : Bool) (h : upsert_ad db offer t = (db2, b)) :
    ∃ r, db_find db2 oid = some r ∧ jparse r.payload_json = some (JVal.jobj offer) := by
  rw [upsert_ad_valid db offer t hT hP] at h
  cases hfind : db_find db oid with
  | none =>
    rw [hfind] at h
    injection h with h1 _
    subst h1
    refine ⟨newRow oid offer t, db_find_append_new _ hfind rfl, ?_⟩
    show jparse (jdumpStr (JVal.jobj offer)) = some (JVal.jobj offer)
    exact jparse_jdump _
  | some r0 =>
    rw [hfind] at h
    injection h with h1 _
    subst h1
    refine ⟨updatedRow r0 offer t,
      db_find_update_self _ hfind (by rw [updatedRow_id, db_find_some_id hfind]), ?_⟩
    show jparse (jdumpStr (JVal.jobj offer)) = some (JVal.jobj offer)
    exact jparse_jdump _

/-- C9 witness: a one-field record with identifier 5. -/
theorem payload_roundtrip_witness :
    ∃ r, db_find (upsert_ad [] [("id", JVal.jint 5)] "t0").1 5 = some r ∧
      jparse r.payload_json = some (JVal.jobj [("id", JVal.jint 5)]) :=
  payload_roundtrip [] [("id", JVal.jint 5)] "t0" 5 (by rfl) (by rfl)
    (upsert_ad [] [("id", JVal.jint 5)] "t0").1
    (upsert_ad [] [("id", JVal.jint 5)] "t0").2 rfl
